import Mathlib

/-!
Verification of the sharded BM25 search engine of the `it-dashboard` repository.

The development shallowly embeds the query-path code:

* `src/app/api/search/route.ts` — the Edge-runtime search route (the current
  revision): `tokenize`, `calculateBM25`, `titleBoost`, `generateSnippet`, and
  the `GET` handler (filtering, scoring, sorting, truncation, and the
  manifest/shard loading control flow).
* `src/unnamed/part_000` — two older revisions of the same route; the first
  revision's `tokenize` and `calculateBM25` are embedded as `tokenizeV1` and
  `calculateBM25V1` (its `calculateBM25` reads `avg_length`, `k1`, `b` from the
  chunk and scores the chunk's stored `tokens` array).

Modelling conventions:

* JavaScript `number` is modelled by `ℚ` (the scoring arithmetic is algebraic;
  no claim concerns float rounding).
* A JSON record such as `idf` with the access pattern `idf[token] || 0` is
  modelled as a total function `String → ℚ` where absent keys map to `0`.
* JavaScript strings are sequences of UTF-16 code units; every character the
  tokenizer can retain is in the Basic Multilingual Plane, where code units and
  code points coincide, so `String`/`List Char` is a faithful model.
* `text.toLowerCase()` is modelled per character by core's `Char.toLower`
  (ASCII-only lowering); the characters that can occur inside a token are CJK,
  ASCII alphanumerics, `_` and whitespace, on which JS lowercasing agrees.
* String comparison `<` (used by the date filter) is code-unit lexicographic in
  JS; it is modelled by a computable lexicographic order `lexLt` on `List Char`.
-/

namespace ITDashboard

/-! ### Character classes of the tokenizer regexes -/

/-- Hiragana part `ぁ-ん` (U+3041–U+3093) of the regex class `[ぁ-んァ-ヶー一-龯]`. -/
def isHiragana (c : Char) : Bool :=
  0x3041 ≤ c.toNat && c.toNat ≤ 0x3093

/-- Katakana part `ァ-ヶ` (U+30A1–U+30F6) of the regex class. -/
def isKatakana (c : Char) : Bool :=
  0x30A1 ≤ c.toNat && c.toNat ≤ 0x30F6

/-- CJK ideograph part `一-龯` (U+4E00–U+9FAF) of the regex class. -/
def isCjkIdeograph (c : Char) : Bool :=
  0x4E00 ≤ c.toNat && c.toNat ≤ 0x9FAF

/-- The full character class `[ぁ-んァ-ヶー一-龯]` (`ー` is U+30FC) used by the
tokenizer regexes in both revisions. -/
def isCjk (c : Char) : Bool :=
  isHiragana c || isKatakana c || c.toNat == 0x30FC || isCjkIdeograph c

/-- The regex class `[A-Za-z0-9]` of the alphanumeric token rule. -/
def isAsciiAlnum (c : Char) : Bool :=
  (65 ≤ c.toNat && c.toNat ≤ 90) || (97 ≤ c.toNat && c.toNat ≤ 122) ||
    (48 ≤ c.toNat && c.toNat ≤ 57)

/-- The regex class `\w` = `[A-Za-z0-9_]`. -/
def isWordChar (c : Char) : Bool :=
  isAsciiAlnum c || c.toNat == 95

/-- The regex class `\s` of ECMAScript (WhiteSpace ∪ LineTerminator):
TAB, LF, VT, FF, CR, SP, NBSP, U+1680, U+2000–U+200A, U+2028, U+2029,
U+202F, U+205F, U+3000, U+FEFF. -/
def isJsSpace (c : Char) : Bool :=
  c.toNat == 0x9 || c.toNat == 0xA || c.toNat == 0xB || c.toNat == 0xC ||
  c.toNat == 0xD || c.toNat == 0x20 || c.toNat == 0xA0 || c.toNat == 0x1680 ||
  (0x2000 ≤ c.toNat && c.toNat ≤ 0x200A) ||
  c.toNat == 0x2028 || c.toNat == 0x2029 || c.toNat == 0x202F ||
  c.toNat == 0x205F || c.toNat == 0x3000 || c.toNat == 0xFEFF

/-! ### Tokenizers

`text.match(/[class]{2,4}/g)` matches, scanning left to right, greedy maximal
pieces of 2–4 class characters.  Inside a maximal run of class characters this
takes 4 characters at a time and drops a single trailing character, which is
what `chunkCjk` does on each maximal run (computed by `runs`). -/

/-- Maximal runs of characters satisfying `p` (helper; `acc` is the current run,
reversed). -/
def runsAux (p : Char → Bool) : List Char → List Char → List (List Char)
  | [], acc => if acc.isEmpty then [] else [acc.reverse]
  | c :: cs, acc =>
    if p c then runsAux p cs (c :: acc)
    else if acc.isEmpty then runsAux p cs [] else acc.reverse :: runsAux p cs []

/-- Maximal runs of characters satisfying `p`, in order; models a global regex
match of `[class]+`. -/
def runs (p : Char → Bool) (cs : List Char) : List (List Char) :=
  runsAux p cs []

/-- Greedy split of one maximal CJK run into regex matches of `[class]{2,4}`:
4 characters at a time, a final piece of 2 or 3 kept, a final single character
dropped. -/
def chunkCjk : List Char → List (List Char)
  | [] => []
  | [_] => []
  | [c1, c2] => [[c1, c2]]
  | [c1, c2, c3] => [[c1, c2, c3]]
  | c1 :: c2 :: c3 :: c4 :: rest => [c1, c2, c3, c4] :: chunkCjk rest

/-- Deduplication keeping the first occurrence — the insertion-order semantics
of `[...new Set(tokens)]`. -/
def dedupKeepFirst (seen : List String) : List String → List String
  | [] => []
  | t :: ts =>
    if t ∈ seen then dedupKeepFirst seen ts else t :: dedupKeepFirst (t :: seen) ts

/-- `t.toLowerCase()` on a token, per character (ASCII lowering; see the header
note). -/
def lowerString (cs : List Char) : String :=
  String.mk (cs.map Char.toLower)

/-- Tokenizer of the Edge-runtime route (`src/app/api/search/route.ts`,
lines 44–67):
1. word tokens: `text.match(/[ぁ-んァ-ヶー一-龯]{2,4}/g)`;
2. bigrams over `textClean = text.replace(/[^\w\sぁ-んァ-ヶー一-龯]/g, '')`,
   kept when the 2-character window contains a CJK-class character;
3. alphanumeric tokens: `text.match(/[A-Za-z0-9]+/g)`;
then lowercase all tokens, deduplicate with a `Set`, and keep tokens of
length ≥ 2. -/
def tokenize (text : String) : List String :=
  let cs := text.data
  let wordTokens := ((runs isCjk cs).map chunkCjk).flatten
  let textClean := cs.filter (fun c => isWordChar c || isJsSpace c || isCjk c)
  let bigrams := (textClean.zip textClean.tail).filterMap
    (fun pr => if isCjk pr.1 || isCjk pr.2 then some [pr.1, pr.2] else none)
  let alphanumeric := runs isAsciiAlnum cs
  let tokens := wordTokens ++ bigrams ++ alphanumeric
  let uniqueTokens := dedupKeepFirst [] (tokens.map lowerString)
  uniqueTokens.filter (fun t => 2 ≤ t.length)

/-- Tokenizer of the first revision in `src/unnamed/part_000` (lines 45–58):
Japanese 2–4 character tokens and alphanumeric tokens, lowercased — no bigrams,
no deduplication, no length filter.  (The second revision there, lines 368–373,
is the same function.) -/
def tokenizeV1 (text : String) : List String :=
  let cs := text.data
  let japaneseTokens := ((runs isCjk cs).map chunkCjk).flatten
  let alphanumeric := runs isAsciiAlnum cs
  (japaneseTokens ++ alphanumeric).map lowerString

/-! ### Tokenizer lemmas -/

theorem mem_dedupKeepFirst : ∀ (seen l : List String) (t : String),
    t ∈ dedupKeepFirst seen l ↔ (t ∈ l ∧ t ∉ seen)
  | seen, [], t => by simp [dedupKeepFirst]
  | seen, x :: xs, t => by
    simp only [dedupKeepFirst]
    by_cases hx : x ∈ seen
    · rw [if_pos hx, mem_dedupKeepFirst seen xs t]
      constructor
      · exact fun h => ⟨List.mem_cons_of_mem _ h.1, h.2⟩
      · rintro ⟨h1, h2⟩
        rcases List.mem_cons.mp h1 with rfl | h1
        · exact absurd hx h2
        · exact ⟨h1, h2⟩
    · rw [if_neg hx, List.mem_cons, mem_dedupKeepFirst (x :: seen) xs t]
      constructor
      · rintro (rfl | ⟨h1, h2⟩)
        · exact ⟨List.mem_cons_self _ _, hx⟩
        · exact ⟨List.mem_cons_of_mem _ h1, fun hs => h2 (List.mem_cons_of_mem _ hs)⟩
      · rintro ⟨h1, h2⟩
        rcases List.mem_cons.mp h1 with rfl | h1
        · exact Or.inl rfl
        · by_cases ht : t = x
          · exact Or.inl ht
          · refine Or.inr ⟨h1, fun hs => ?_⟩
            rcases List.mem_cons.mp hs with h | h
            · exact ht h
            · exact h2 h

theorem nodup_dedupKeepFirst : ∀ (seen l : List String), (dedupKeepFirst seen l).Nodup
  | seen, [] => by simp [dedupKeepFirst]
  | seen, x :: xs => by
    simp only [dedupKeepFirst]
    by_cases hx : x ∈ seen
    · rw [if_pos hx]
      exact nodup_dedupKeepFirst seen xs
    · rw [if_neg hx]
      refine List.nodup_cons.mpr ⟨?_, nodup_dedupKeepFirst (x :: seen) xs⟩
      intro hmem
      exact ((mem_dedupKeepFirst _ _ _).mp hmem).2 (List.mem_cons_self x seen)

/-- ASCII lowering never produces an uppercase ASCII letter. -/
theorem toLower_not_upper (c : Char) :
    ¬(65 ≤ (Char.toLower c).toNat ∧ (Char.toLower c).toNat ≤ 90) := by
  unfold Char.toLower
  by_cases h : c.toNat ≥ 65 ∧ c.toNat ≤ 90
  · rw [if_pos h]
    have hv : Char.isValidCharNat (c.toNat + 32) := Or.inl (by omega)
    rw [Char.ofNat, dif_pos hv]
    have hn : (Char.ofNatAux (c.toNat + 32) hv).toNat = c.toNat + 32 := by
      simp [Char.ofNatAux, Char.toNat, UInt32.ofNat', UInt32.toNat, BitVec.toNat_ofNatLt]
    rw [hn]
    omega
  · rw [if_neg h]
    omega

/-- Claim C1 (code_bug evidence): the Edge-runtime tokenizer and the tokenizer
of the older query-path revisions are different functions, although both carry
the comment that they agree exactly with the Python build-side tokenizer.  On
`"a"` the Edge route drops the single-character alphanumeric token that the
older revision keeps; on `"あいあい"` the Edge route additionally emits bigram
tokens. -/
theorem tokenizer_drift :
    tokenize "a" = [] ∧ tokenizeV1 "a" = ["a"] ∧
    tokenize "あいあい" = ["あいあい", "あい", "いあ"] ∧
    tokenizeV1 "あいあい" = ["あいあい"] := by
  refine ⟨by decide, by decide, by decide, by decide⟩

/-- Claim C2 (counterexample): `"b"` is a maximal alphanumeric candidate of
length 1, yet the Edge-runtime tokenizer's output does not retain it — the
length ≥ 2 filter is applied to the alphanumeric stream as well. -/
theorem single_char_alnum_dropped :
    runs isAsciiAlnum "b".data = [['b']] ∧ "b" ∉ tokenize "b" := by
  refine ⟨by decide, by decide⟩

/-- Claim C2 (amended): `tokenize` lowercases all candidates, discards
duplicates, and applies the minimum-length-2 filter to every candidate stream:
no token of length < 2 of any kind — CJK or alphanumeric — appears in the
output, and no output token contains an uppercase ASCII letter. -/
theorem tokenize_lower_nodup_minlen (s : String) :
    (tokenize s).Nodup
    ∧ (∀ t ∈ tokenize s, 2 ≤ t.length)
    ∧ (∀ t ∈ tokenize s, ∀ c ∈ t.data, ¬(65 ≤ c.toNat ∧ c.toNat ≤ 90)) := by
  refine ⟨?_, ?_, ?_⟩
  · exact (nodup_dedupKeepFirst _ _).filter _
  · intro t ht
    have := List.of_mem_filter ht
    exact of_decide_eq_true this
  · intro t ht c hc
    have ht' : t ∈ dedupKeepFirst [] _ := List.mem_of_mem_filter ht
    have hmem := ((mem_dedupKeepFirst _ _ _).mp ht').1
    rcases List.mem_map.mp hmem with ⟨u, _, rfl⟩
    rcases List.mem_map.mp hc with ⟨c', _, rfl⟩
    exact toLower_not_upper c'

/-- Witness for `tokenize_lower_nodup_minlen` at the concrete token `"dx"`. -/
theorem tokenize_lower_nodup_minlen_witness : 2 ≤ ("dx" : String).length :=
  (tokenize_lower_nodup_minlen "dx").2.1 "dx" (by decide)

/-- The Edge-route tokenizer output has no duplicates (shared helper; it is the
`Set` deduplication of line 65 of `route.ts`). -/
theorem tokenize_nodup (s : String) : (tokenize s).Nodup :=
  (nodup_dedupKeepFirst _ _).filter _

/-! ### Data model of the Edge-runtime route (`route.ts`, lines 11–41) -/

/-- The `Chunk` interface of the Edge-runtime route.  `text` is the stored
500-character snippet, `char_count` the original character count (a stored
field, not recomputed from `text`). -/
structure Chunk where
  chunk_id : String
  doc_id : String
  text : String
  meeting : String
  agency : String
  title : String
  date : String
  url : String
  page_from : Int
  page_to : Int
  char_count : ℚ

/-- The `Shard` interface of the Edge-runtime route (the code reads `idf`,
`avg_length`, `k1`, `b` from the loaded shard object). -/
structure Shard where
  shard_id : String
  group : String
  chunk_count : ℕ
  chunks : List Chunk
  idf : String → ℚ
  avg_length : ℚ
  k1 : ℚ
  b : ℚ

/-- The `Chunk` interface of the first revision in `part_000` (lines 10–27): it
additionally stores the precomputed `tokens` and the BM25 parameters
`avg_length`, `k1`, `b` per chunk. -/
structure ChunkV1 where
  chunk_id : String
  doc_id : String
  text : String
  tokens : List String
  token_count : ℕ
  meeting : String
  agency : String
  title : String
  date : String
  url : String
  page_from : Int
  page_to : Int
  char_count : ℚ
  avg_length : ℚ
  k1 : ℚ
  b : ℚ

/-! ### BM25 scoring -/

/-- One iteration of the scoring loop shared by both `calculateBM25`
revisions: `tf = termFreq[token] || 0`, `idfValue = idf[token] || 0`, and a
contribution only when `tf > 0 && idfValue > 0`. -/
def bm25Step (termFreq : String → ℕ) (idf : String → ℚ) (docLength avgLength k1 b : ℚ)
    (score : ℚ) (token : String) : ℚ :=
  let tf : ℚ := (termFreq token : ℚ)
  let idfValue := idf token
  if 0 < tf ∧ 0 < idfValue then
    let numerator := tf * (k1 + 1)
    let denominator := tf + k1 * (1 - b + b * (docLength / avgLength))
    score + idfValue * (numerator / denominator)
  else score

/-- The scoring loop (`let score = 0; for (const token of queryTokens) ...`)
shared by both `calculateBM25` revisions; they differ only in where the term
frequencies and the shard statistics come from. -/
def bm25Core (queryTokens : List String) (termFreq : String → ℕ) (idf : String → ℚ)
    (docLength avgLength k1 b : ℚ) : ℚ :=
  queryTokens.foldl (bm25Step termFreq idf docLength avgLength k1 b) 0

/-- `calculateBM25` of the Edge-runtime route (`route.ts`, lines 70–102): the
document tokens are regenerated from `chunk.text` by `tokenize`, the term
frequency is the count in that (deduplicated) list, and `docLength` is the
stored `chunk.char_count`. -/
def calculateBM25 (queryTokens : List String) (chunk : Chunk) (idf : String → ℚ)
    (avgLength k1 b : ℚ) : ℚ :=
  bm25Core queryTokens (fun t => (tokenize chunk.text).count t) idf
    chunk.char_count avgLength k1 b

/-- `calculateBM25` of the first revision in `part_000` (lines 61–91): the
document tokens are the chunk's stored `tokens`, and `avg_length`, `k1`, `b`
are read from the chunk. -/
def calculateBM25V1 (queryTokens : List String) (chunk : ChunkV1) (idf : String → ℚ) : ℚ :=
  bm25Core queryTokens (fun t => chunk.tokens.count t) idf
    chunk.char_count chunk.avg_length chunk.k1 chunk.b

/-- Closed form of one loop iteration's contribution. -/
def bm25Term (tf : ℕ) (idfValue k1 b docLength avgLength : ℚ) : ℚ :=
  if 0 < (tf : ℚ) ∧ 0 < idfValue then
    idfValue * ((tf : ℚ) * (k1 + 1) / ((tf : ℚ) + k1 * (1 - b + b * (docLength / avgLength))))
  else 0

/-- Modelled from the spec: §4.4's description of one query token's
contribution — `idf[token] * tf*(k1+1) / (tf + k1*(1 - b + b*(char_count /
avg_length)))`, where a token absent from the term-frequency table (`tf = 0`)
or with `idf ≤ 0` contributes exactly 0. -/
def bm25SpecContribution (tf : ℕ) (idfValue k1 b docLength avgLength : ℚ) : ℚ :=
  if tf = 0 ∨ idfValue ≤ 0 then 0
  else idfValue * ((tf : ℚ) * (k1 + 1)) / ((tf : ℚ) + k1 * (1 - b + b * (docLength / avgLength)))

/-- Modelled from the spec: the score as §4.4 words it — the sum of
contributions over the query tokens, with term frequencies taken from the
chunk's term-frequency table (on the Edge path, the deduplicated tokenization
of `chunk.text`). -/
def bm25SpecScore (queryTokens : List String) (chunk : Chunk) (idf : String → ℚ)
    (avgLength k1 b : ℚ) : ℚ :=
  (queryTokens.map (fun t =>
    bm25SpecContribution ((tokenize chunk.text).count t) (idf t) k1 b
      chunk.char_count avgLength)).sum

theorem bm25Step_eq (termFreq : String → ℕ) (idf : String → ℚ)
    (docLength avgLength k1 b s : ℚ) (t : String) :
    bm25Step termFreq idf docLength avgLength k1 b s t
      = s + bm25Term (termFreq t) (idf t) k1 b docLength avgLength := by
  by_cases h : 0 < termFreq t ∧ 0 < idf t
  · simp [bm25Step, bm25Term, Nat.cast_pos, h]
  · simp [bm25Step, bm25Term, Nat.cast_pos, h]

theorem bm25Core_eq_sum (queryTokens : List String) (termFreq : String → ℕ)
    (idf : String → ℚ) (docLength avgLength k1 b : ℚ) :
    bm25Core queryTokens termFreq idf docLength avgLength k1 b
      = (queryTokens.map (fun t =>
          bm25Term (termFreq t) (idf t) k1 b docLength avgLength)).sum := by
  have aux : ∀ (l : List String) (init : ℚ),
      l.foldl (bm25Step termFreq idf docLength avgLength k1 b) init
        = init + (l.map (fun t =>
            bm25Term (termFreq t) (idf t) k1 b docLength avgLength)).sum := by
    intro l
    induction l with
    | nil => intro init; simp
    | cons a l ih =>
      intro init
      simp only [List.foldl_cons, List.map_cons, List.sum_cons, bm25Step_eq, ih]
      ring
  simpa using aux queryTokens 0

theorem bm25Term_eq_spec (tf : ℕ) (idfValue k1 b docLength avgLength : ℚ) :
    bm25Term tf idfValue k1 b docLength avgLength
      = bm25SpecContribution tf idfValue k1 b docLength avgLength := by
  unfold bm25Term bm25SpecContribution
  rcases eq_or_ne tf 0 with rfl | h1
  · simp
  · by_cases h2 : 0 < idfValue
    · rw [if_pos ⟨by exact_mod_cast Nat.pos_of_ne_zero h1, h2⟩,
        if_neg (by push_neg; exact ⟨h1, h2⟩)]
      ring
    · rw [if_neg (fun hc => h2 hc.2), if_pos (Or.inr (not_lt.mp h2))]

theorem bm25Term_nonneg (tf : ℕ) (idfValue k1 b docLength avgLength : ℚ)
    (hk : 0 ≤ k1) (hb0 : 0 ≤ b) (hb1 : b ≤ 1) (havg : 0 < avgLength)
    (hL : 0 ≤ docLength) :
    0 ≤ bm25Term tf idfValue k1 b docLength avgLength := by
  unfold bm25Term
  split
  · next h =>
    have hx : 0 ≤ 1 - b + b * (docLength / avgLength) := by
      have hbl : 0 ≤ b * (docLength / avgLength) :=
        mul_nonneg hb0 (div_nonneg hL havg.le)
      linarith
    have hden : 0 < (tf : ℚ) + k1 * (1 - b + b * (docLength / avgLength)) := by
      have : 0 ≤ k1 * (1 - b + b * (docLength / avgLength)) := mul_nonneg hk hx
      linarith [h.1]
    exact mul_nonneg h.2.le
      (div_nonneg (mul_nonneg h.1.le (by linarith)) hden.le)
  · exact le_refl 0

theorem bm25Term_mono (tf tf' : ℕ) (idfValue k1 b docLength avgLength : ℚ)
    (h : tf ≤ tf') (hidf : 0 < idfValue) (hk : 0 ≤ k1) (hb0 : 0 ≤ b) (hb1 : b ≤ 1)
    (havg : 0 < avgLength) (hL : 0 ≤ docLength) :
    bm25Term tf idfValue k1 b docLength avgLength
      ≤ bm25Term tf' idfValue k1 b docLength avgLength := by
  rcases Nat.eq_zero_or_pos tf with rfl | htf
  · have h0 : bm25Term 0 idfValue k1 b docLength avgLength = 0 := by
      unfold bm25Term
      rw [if_neg (by push_cast; intro hc; exact lt_irrefl 0 hc.1)]
    rw [h0]
    exact bm25Term_nonneg tf' idfValue k1 b docLength avgLength hk hb0 hb1 havg hL
  · have htf' : 0 < tf' := lt_of_lt_of_le htf h
    have hx : 0 ≤ 1 - b + b * (docLength / avgLength) := by
      have hbl : 0 ≤ b * (docLength / avgLength) :=
        mul_nonneg hb0 (div_nonneg hL havg.le)
      linarith
    have hD : 0 ≤ k1 * (1 - b + b * (docLength / avgLength)) := mul_nonneg hk hx
    unfold bm25Term
    rw [if_pos ⟨by exact_mod_cast htf, hidf⟩, if_pos ⟨by exact_mod_cast htf', hidf⟩]
    apply mul_le_mul_of_nonneg_left ?_ hidf.le
    have hc : ((tf : ℚ)) ≤ (tf' : ℚ) := by exact_mod_cast h
    have hc0 : (0 : ℚ) < (tf : ℚ) := by exact_mod_cast htf
    rw [div_le_div_iff₀ (by linarith) (by linarith)]
    nlinarith [mul_le_mul_of_nonneg_left (mul_le_mul_of_nonneg_right hc hD) (by linarith : (0:ℚ) ≤ k1 + 1)]

/-- Claim C3: the Edge-route BM25 score equals the spec's sum of per-token
contributions — a query token absent from the chunk's term-frequency table
(`tf = 0`) or with `idf ≤ 0` contributes exactly 0 — and, for admissible BM25
statistics (`k1 ≥ 0`, `0 ≤ b ≤ 1`, positive average length, non-negative
document length), the resulting score is ≥ 0. -/
theorem calculateBM25_spec (qts : List String) (chunk : Chunk) (idf : String → ℚ)
    (avgLength k1 b : ℚ) :
    calculateBM25 qts chunk idf avgLength k1 b = bm25SpecScore qts chunk idf avgLength k1 b
    ∧ (0 ≤ k1 → 0 ≤ b → b ≤ 1 → 0 < avgLength → 0 ≤ chunk.char_count →
        0 ≤ calculateBM25 qts chunk idf avgLength k1 b) := by
  constructor
  · unfold calculateBM25 bm25SpecScore
    rw [bm25Core_eq_sum]
    simp only [bm25Term_eq_spec]
  · intro hk hb0 hb1 havg hL
    unfold calculateBM25
    rw [bm25Core_eq_sum]
    apply List.sum_nonneg
    intro x hx
    rcases List.mem_map.mp hx with ⟨t, _, rfl⟩
    exact bm25Term_nonneg _ _ _ _ _ _ hk hb0 hb1 havg hL

/-- A concrete chunk used by witnesses. -/
def chunkA : Chunk :=
  { chunk_id := "c1", doc_id := "d1", text := "ai strategy", meeting := "m1",
    agency := "デジタル庁", title := "AI戦略", date := "2025-08-01", url := "u1",
    page_from := 1, page_to := 2, char_count := 10 }

/-- Witness for `calculateBM25_spec` at a concrete query, chunk and statistics. -/
theorem calculateBM25_spec_witness :
    0 ≤ calculateBM25 ["ai"] chunkA (fun t => if t = "ai" then 2 else 0) 10 (3/2) (3/4) :=
  (calculateBM25_spec ["ai"] chunkA (fun t => if t = "ai" then 2 else 0) 10 (3/2) (3/4)).2
    (by norm_num) (by norm_num) (by norm_num) (by norm_num) (by norm_num [chunkA])

/-- Claim C7: BM25 monotonicity in term frequency, stated on the revision that
scores a chunk's stored `tokens` (`calculateBM25V1`).  Increasing one query
token's term frequency — holding `char_count`, the shard statistics, and all
other term frequencies fixed — never decreases the score, provided that token
has positive idf and the statistics are admissible. -/
theorem bm25V1_tf_monotone (qts : List String) (c c' : ChunkV1) (idf : String → ℚ)
    (t : String)
    (hcc : c'.char_count = c.char_count) (havg : c'.avg_length = c.avg_length)
    (hk1 : c'.k1 = c.k1) (hb : c'.b = c.b)
    (hother : ∀ s, s ≠ t → c'.tokens.count s = c.tokens.count s)
    (hmono : c.tokens.count t ≤ c'.tokens.count t)
    (hidf : 0 < idf t) (hk : 0 ≤ c.k1) (hb0 : 0 ≤ c.b) (hb1 : c.b ≤ 1)
    (havgpos : 0 < c.avg_length) (hL : 0 ≤ c.char_count) :
    calculateBM25V1 qts c idf ≤ calculateBM25V1 qts c' idf := by
  unfold calculateBM25V1
  rw [bm25Core_eq_sum, bm25Core_eq_sum, hcc, havg, hk1, hb]
  apply List.sum_le_sum
  intro s _
  by_cases hst : s = t
  · subst hst
    exact bm25Term_mono _ _ _ _ _ _ _ hmono hidf hk hb0 hb1 havgpos hL
  · rw [hother s hst]

/-- A concrete V1 chunk with one `"ai"` occurrence. -/
def chunkV1A : ChunkV1 :=
  { chunk_id := "c1", doc_id := "d1", text := "ai", tokens := ["ai"],
    token_count := 1, meeting := "m1", agency := "a1", title := "t1",
    date := "2025-08-01", url := "u1", page_from := 1, page_to := 1,
    char_count := 10, avg_length := 10, k1 := 3/2, b := 3/4 }

/-- The same chunk with the `"ai"` term frequency increased to 2. -/
def chunkV1B : ChunkV1 :=
  { chunkV1A with tokens := ["ai", "ai"], token_count := 2 }

/-- Witness for `bm25V1_tf_monotone` at concrete chunks. -/
theorem bm25V1_tf_monotone_witness :
    calculateBM25V1 ["ai"] chunkV1A (fun t => if t = "ai" then 1 else 0)
      ≤ calculateBM25V1 ["ai"] chunkV1B (fun t => if t = "ai" then 1 else 0) := by
  refine bm25V1_tf_monotone ["ai"] chunkV1A chunkV1B _ "ai" rfl rfl rfl rfl ?_
    (by decide) (by norm_num) (by norm_num [chunkV1A]) (by norm_num [chunkV1A])
    (by norm_num [chunkV1A]) (by norm_num [chunkV1A]) (by norm_num [chunkV1A])
  intro s hs
  simp [chunkV1A, chunkV1B, List.count_cons, hs]

/-- A chunk whose text is `"あい"` (one occurrence of the term). -/
def chunkRep1 : Chunk :=
  { chunkA with text := "あい", char_count := 10 }

/-- The same chunk with the term `"あい"` repeated within the text. -/
def chunkRep2 : Chunk :=
  { chunkA with text := "あいあい", char_count := 10 }

/-- Claim C10 (counterexample): repeating a term inside `chunk.text` (holding
the stored `char_count` fixed) can change the Edge-route BM25 score, because
the repetition creates a new bigram token (`"いあ"`) that a query can match:
the score for the query token `"いあ"` moves from 0 to 1. -/
theorem repeated_term_changes_score :
    chunkRep1.text = "あい" ∧ chunkRep2.text = "あいあい"
    ∧ chunkRep2.char_count = chunkRep1.char_count
    ∧ calculateBM25 ["いあ"] chunkRep1 (fun t => if t = "いあ" then 1 else 0) 10 (3/2) (3/4) = 0
    ∧ calculateBM25 ["いあ"] chunkRep2 (fun t => if t = "いあ" then 1 else 0) 10 (3/2) (3/4) = 1 := by
  refine ⟨rfl, rfl, rfl, ?_, ?_⟩
  · have h1 : (tokenize chunkRep1.text).count "いあ" = 0 := by decide
    simp [calculateBM25, bm25Core, bm25Step, h1]
  · have h2 : (tokenize chunkRep2.text).count "いあ" = 1 := by decide
    simp [calculateBM25, bm25Core, bm25Step, h2]
    norm_num [chunkRep2, chunkA]

/-- Claim C10 (amended): on the Edge path every term frequency is 0 or 1
(the tokenizer deduplicates), and the BM25 score depends on `chunk.text` only
through its token set: chunks whose texts tokenize to the same set of tokens
and that carry the same stored `char_count` receive identical scores.
(Repeating a term inside the text is not score-invariant in general, because
adjacency can create new bigram tokens — see the counterexample.) -/
theorem bm25_presence_only (qts : List String) (c1 c2 : Chunk) (idf : String → ℚ)
    (avgLength k1 b : ℚ) (t : String)
    (hcc : c1.char_count = c2.char_count)
    (hset : ∀ s : String, s ∈ tokenize c1.text ↔ s ∈ tokenize c2.text) :
    (tokenize c1.text).count t ≤ 1
    ∧ calculateBM25 qts c1 idf avgLength k1 b = calculateBM25 qts c2 idf avgLength k1 b := by
  constructor
  · exact List.nodup_iff_count_le_one.mp (tokenize_nodup c1.text) t
  · have hcount : ∀ s, (tokenize c1.text).count s = (tokenize c2.text).count s := by
      intro s
      by_cases hs : s ∈ tokenize c1.text
      · rw [List.count_eq_one_of_mem (tokenize_nodup _) hs,
          List.count_eq_one_of_mem (tokenize_nodup _) ((hset s).mp hs)]
      · rw [List.count_eq_zero_of_not_mem hs,
          List.count_eq_zero_of_not_mem (fun h => hs ((hset s).mpr h))]
    unfold calculateBM25
    rw [hcc]
    congr 1
    funext s
    exact hcount s

/-- A chunk with lowercase text `"ab"`. -/
def chunkLower : Chunk :=
  { chunkA with text := "ab", char_count := 5 }

/-- A chunk with uppercase text `"AB"` — a different text with the same token
set. -/
def chunkUpper : Chunk :=
  { chunkA with text := "AB", char_count := 5 }

/-- Witness for `bm25_presence_only`: two different texts with equal token
sets receive equal scores. -/
theorem bm25_presence_only_witness :
    (tokenize chunkLower.text).count "ab" ≤ 1
    ∧ calculateBM25 ["ab"] chunkLower (fun _ => 1) 5 (3/2) (3/4)
        = calculateBM25 ["ab"] chunkUpper (fun _ => 1) 5 (3/2) (3/4) :=
  bm25_presence_only ["ab"] chunkLower chunkUpper (fun _ => 1) 5 (3/2) (3/4) "ab" rfl
    (by intro s; rw [show tokenize chunkLower.text = tokenize chunkUpper.text from by decide])


/-! ### Lexicographic string comparison

JS `<`/`>` on strings compares code units lexicographically; `lexLt` is the
computable model on `List Char`. -/

def lexLt : List Char → List Char → Bool
  | [], [] => false
  | [], _ :: _ => true
  | _ :: _, [] => false
  | a :: as, b :: bs => if a < b then true else if b < a then false else lexLt as bs

/-- Inclusive lexicographic order used by the spec's wording of the date
filter. -/
def lexLe (a b : List Char) : Prop :=
  lexLt a b = true ∨ a = b

theorem lexLt_false_iff : ∀ a b : List Char, lexLt a b = false ↔ (lexLt b a = true ∨ a = b)
  | [], [] => by simp [lexLt]
  | [], _ :: _ => by simp [lexLt]
  | _ :: _, [] => by simp [lexLt]
  | a :: as, b :: bs => by
    simp only [lexLt]
    rcases lt_trichotomy a b with h | h | h
    · simp [h, not_lt.mpr h.le, h.ne]
    · subst h
      simp [lt_irrefl, lexLt_false_iff as bs]
    · simp [h, not_lt.mpr h.le, h.ne']

theorem not_lexLt_iff (a b : List Char) : lexLt a b = false ↔ lexLe b a := by
  rw [lexLt_false_iff]
  exact or_congr Iff.rfl eq_comm

theorem lexLt_trans : ∀ a b c : List Char,
    lexLt a b = true → lexLt b c = true → lexLt a c = true
  | as, bs, [] => by
    intro _ h2
    exfalso
    cases bs <;> simp [lexLt] at h2
  | as, [], c :: cs => by
    intro h1 _
    exfalso
    cases as <;> simp [lexLt] at h1
  | [], b :: bs, c :: cs => by
    intro _ _
    simp [lexLt]
  | a :: as, b :: bs, c :: cs => by
    intro h1 h2
    simp only [lexLt] at h1 h2 ⊢
    by_cases hab : a < b
    · by_cases hbc : b < c
      · rw [if_pos (lt_trans hab hbc)]
      · rw [if_neg hbc] at h2
        by_cases hcb : c < b
        · rw [if_pos hcb] at h2
          exact absurd h2 (by simp)
        · have hbceq : b = c := le_antisymm (not_lt.mp hcb) (not_lt.mp hbc)
          subst hbceq
          rw [if_pos hab]
    · rw [if_neg hab] at h1
      by_cases hba : b < a
      · rw [if_pos hba] at h1
        exact absurd h1 (by simp)
      · rw [if_neg hba] at h1
        have habeq : a = b := le_antisymm (not_lt.mp hba) (not_lt.mp hab)
        subst habeq
        by_cases hac : a < c
        · rw [if_pos hac]
        · rw [if_neg hac] at h2 ⊢
          by_cases hca : c < a
          · rw [if_pos hca] at h2
            exact absurd h2 (by simp)
          · rw [if_neg hca] at h2 ⊢
            exact lexLt_trans as bs cs h1 h2

theorem lexLe_trans {a b c : List Char} (h1 : lexLe a b) (h2 : lexLe b c) : lexLe a c := by
  rcases h1 with h1 | rfl
  · rcases h2 with h2 | rfl
    · exact Or.inl (lexLt_trans a b c h1 h2)
    · exact Or.inl h1
  · exact h2

/-! ### Query parameters and filters -/

/-- The parsed query parameters of `GET` after the defaulting on lines
149–154 of `route.ts` (`from` defaults to `"2020-01-01"`, `to` to
`"2030-12-31"`, the sets to `[]`, `size` to 50). -/
structure SearchParams where
  q : String
  fromDate : String
  toDate : String
  agencies : List String
  meetings : List String
  size : ℕ

/-- The three per-chunk filters (`route.ts`, lines 267–287): the date filter
skips a chunk only when its date is nonempty (truthy) and lies outside
`[from, to]`; then the agency and the meeting set filters, each active only
when its set is non-empty. -/
def passesFilters (p : SearchParams) (c : Chunk) : Bool :=
  if c.date ≠ "" ∧ (lexLt c.date.data p.fromDate.data = true ∨ lexLt p.toDate.data c.date.data = true) then false
  else if p.agencies ≠ [] ∧ c.agency ∉ p.agencies then false
  else if p.meetings ≠ [] ∧ c.meeting ∉ p.meetings then false
  else true

/-! ### Title boost and snippet (`route.ts`, lines 105–144) -/

/-- `titleBoost`: count the query tokens contained in the tokenized title and
multiply by 2.0. -/
def titleBoost (queryTokens : List String) (title : String) : ℚ :=
  let titleTokens := tokenize title
  let matchCount := queryTokens.foldl (fun n token => if token ∈ titleTokens then n + 1 else n) (0 : ℕ)
  (matchCount : ℚ) * 2

/-- `startsWith needle hay`: `needle` is a leading piece of `hay`. -/
def startsWith : List Char → List Char → Bool
  | [], _ => true
  | _ :: _, [] => false
  | a :: as, b :: bs => a == b && startsWith as bs

/-- JS `hay.includes(needle)` — substring containment. -/
def hasSubstr (needle : List Char) : List Char → Bool
  | [] => needle.isEmpty
  | c :: rest => startsWith needle (c :: rest) || hasSubstr needle rest

/-- JS `String.trim()` — strip the `\s` class from both ends. -/
def jsTrim (cs : List Char) : List Char :=
  ((cs.dropWhile isJsSpace).reverse.dropWhile isJsSpace).reverse

/-- `generateSnippet` (lines 117–144): slide a `maxLength`-character window in
strides of 50 over the lowercased text, count query tokens contained in each
window, keep the first position with the maximum count (starting from
`bestStart = 0, maxMatches = 0`), then cut the window from the original text,
add leading/trailing ellipses, and trim. -/
def generateSnippet (text : String) (queryTokens : List String) (maxLength : ℕ := 200) : String :=
  let cs := text.data
  let lowerText := cs.map Char.toLower
  let positions := (List.range cs.length).filter
    (fun i => i % 50 == 0 && decide (i < cs.length - maxLength))
  let best := positions.foldl (fun (best : ℕ × ℕ) i =>
    let window := (lowerText.drop i).take maxLength
    let m := queryTokens.countP (fun t => hasSubstr (t.data.map Char.toLower) window)
    if best.2 < m then (i, m) else best) (0, 0)
  let bestStart := best.1
  let snippet := (cs.drop bestStart).take maxLength
  let snippet := if 0 < bestStart then '.' :: '.' :: '.' :: snippet else snippet
  let snippet := if bestStart + maxLength < cs.length then snippet ++ ['.', '.', '.'] else snippet
  String.mk (jsTrim snippet)

/-! ### The ranked pipeline (`route.ts`, lines 254–374) -/

/-- `totalScore = bm25Score + titleScore` (lines 289–302). -/
def chunkScore (queryTokens : List String) (sh : Shard) (c : Chunk) : ℚ :=
  calculateBM25 queryTokens c sh.idf sh.avg_length sh.k1 sh.b + titleBoost queryTokens c.title

/-- Per-shard candidate collection: apply the filters, score, and keep the
chunk iff `totalScore > 0` (lines 263–314). -/
def shardResults (p : SearchParams) (queryTokens : List String) (sh : Shard) :
    List (Chunk × ℚ) :=
  (sh.chunks.filter (fun c => passesFilters p c)).filterMap (fun c =>
    if 0 < chunkScore queryTokens sh c then some (c, chunkScore queryTokens sh c) else none)

/-- `Math.round(r.score * 10) / 10` (line 363); `Math.round` is
round-half-up. -/
def roundTo1 (q : ℚ) : ℚ :=
  ((⌊q * 10 + 1/2⌋ : ℤ) : ℚ) / 10

/-- One returned hit (lines 355–367). -/
structure Hit where
  doc_id : String
  chunk_id : String
  meeting : String
  agency : String
  date : String
  title : String
  snippet : String
  score : ℚ
  url : String
  page_from : Int
  page_to : Int

/-- The response: hits, the pre-truncation match count, an optional error
marker and the HTTP status.  (The success response also echoes `query` and
`tokens`; no claim concerns those two fields.) -/
structure SearchResponse where
  hits : List Hit
  count : ℕ
  error : Option String
  status : ℕ

/-- The success path over the loaded shards: collect the scored candidates of
every shard, sort by score descending (`results.sort((a, b) => b.score -
a.score)`), truncate to `size`, and map to the hit records with the rounded
display score.  `count` is the number of candidates before truncation.  (The
source computes each snippet when the candidate is pushed; the snippet depends
only on `chunk.text` and the query tokens, so computing it in the final
mapping yields the same hits.) -/
def searchResults (p : SearchParams) (queryTokens : List String) (shards : List Shard) :
    List (Chunk × ℚ) :=
  (shards.map (shardResults p queryTokens)).flatten

/-- `results.sort((a, b) => b.score - a.score)` — descending by score. -/
def searchSorted (p : SearchParams) (queryTokens : List String) (shards : List Shard) :
    List (Chunk × ℚ) :=
  (searchResults p queryTokens shards).mergeSort (fun a b => decide (b.2 ≤ a.2))

/-- The hit record built from one scored candidate (lines 355–367). -/
def toHit (queryTokens : List String) (r : Chunk × ℚ) : Hit :=
  { doc_id := r.1.doc_id, chunk_id := r.1.chunk_id, meeting := r.1.meeting,
    agency := r.1.agency, date := r.1.date, title := r.1.title,
    snippet := generateSnippet r.1.text queryTokens, score := roundTo1 r.2,
    url := r.1.url, page_from := r.1.page_from, page_to := r.1.page_to }

def searchCore (p : SearchParams) (queryTokens : List String) (shards : List Shard) :
    SearchResponse :=
  { hits := ((searchSorted p queryTokens shards).take p.size).map (toHit queryTokens),
    count := (searchResults p queryTokens shards).length,
    error := none, status := 200 }

/-! ### Manifest and shard loading (`route.ts`, lines 146–253) -/

/-- A row of the `_index.json` manifest. -/
structure ShardIndexEntry where
  shard_id : String
  filename : String
  group : String
  chunk_count : ℕ

/-- The environment of one request: the manifest fetch result and the shard
fetch results; `none` models a failed fetch or a parse failure. -/
structure Env where
  manifest : Option (List ShardIndexEntry)
  fetchShard : ShardIndexEntry → Option Shard

/-- The shards that loaded successfully: the Edge route fetches only the
first 10 manifest entries (`shardIndex.slice(0, 10)`, line 199) and drops
each failed fetch (lines 200–213). -/
def loadedShards (env : Env) (idx : List ShardIndexEntry) : List Shard :=
  (idx.take 10).filterMap env.fetchShard

/-- The empty-but-successful response `{hits: [], count: 0}`. -/
def emptyOk : SearchResponse :=
  { hits := [], count := 0, error := none, status := 200 }

/-- The `GET` handler (lines 146–388) as a function of the parsed parameters
and the environment.  Besides the response it reports whether the manifest
was read and how many shard fetches were attempted. -/
def handleSearch (env : Env) (p : SearchParams) : SearchResponse × Bool × ℕ :=
  if (jsTrim p.q.data).isEmpty then (emptyOk, false, 0)
  else
    let queryTokens := tokenize p.q
    if queryTokens.isEmpty then (emptyOk, false, 0)
    else
      match env.manifest with
      | none =>
        ({ hits := [], count := 0, error := some "Index not found", status := 404 }, true, 0)
      | some idx =>
        let shards := loadedShards env idx
        if shards.isEmpty then
          ({ hits := [], count := 0, error := some "No shards loaded", status := 404 },
            true, (idx.take 10).length)
        else (searchCore p queryTokens shards, true, (idx.take 10).length)


/-! ### Filter semantics (claims C4, C5) -/

theorem foldl_count_eq (tt : List String) :
    ∀ (l : List String) (init : ℕ),
      l.foldl (fun n token => if token ∈ tt then n + 1 else n) init
        = init + (l.filter (fun t => decide (t ∈ tt))).length
  | [], init => by simp
  | a :: l, init => by
    by_cases h : a ∈ tt
    · simp [List.foldl_cons, h, foldl_count_eq tt l]
      omega
    · simp [List.foldl_cons, h, foldl_count_eq tt l]

theorem passesFilters_iff (p : SearchParams) (c : Chunk) :
    passesFilters p c = true ↔
      ((c.date = "" ∨ (lexLe p.fromDate.data c.date.data ∧ lexLe c.date.data p.toDate.data))
        ∧ (p.agencies = [] ∨ c.agency ∈ p.agencies)
        ∧ (p.meetings = [] ∨ c.meeting ∈ p.meetings)) := by
  unfold passesFilters
  split_ifs with h1 h2 h3
  · simp only [Bool.false_eq_true, false_iff]
    rintro ⟨hd, _, _⟩
    obtain ⟨hne, hout⟩ := h1
    rcases hd with hd | ⟨hge, hle⟩
    · exact hne hd
    · rcases hout with hout | hout
      · have hf := (not_lexLt_iff c.date.data p.fromDate.data).mpr hge
        simp [hf] at hout
      · have hf := (not_lexLt_iff p.toDate.data c.date.data).mpr hle
        simp [hf] at hout
  · simp only [Bool.false_eq_true, false_iff]
    rintro ⟨_, ha, _⟩
    rcases ha with ha | ha
    · exact h2.1 ha
    · exact h2.2 ha
  · simp only [Bool.false_eq_true, false_iff]
    rintro ⟨_, _, hm⟩
    rcases hm with hm | hm
    · exact h3.1 hm
    · exact h3.2 hm
  · refine ⟨fun _ => ⟨?_, ?_, ?_⟩, fun _ => rfl⟩
    · rcases eq_or_ne c.date "" with hd | hd
      · exact Or.inl hd
      · push_neg at h1
        refine Or.inr ⟨?_, ?_⟩
        · exact (not_lexLt_iff _ _).mp (Bool.eq_false_iff.mpr (h1 hd).1)
        · exact (not_lexLt_iff _ _).mp (Bool.eq_false_iff.mpr (h1 hd).2)
    · by_cases ha : p.agencies = []
      · exact Or.inl ha
      · push_neg at h2
        exact Or.inr (h2 ha)
    · by_cases hm : p.meetings = []
      · exact Or.inl hm
      · push_neg at h3
        exact Or.inr (h3 hm)

/-- Modelled from the spec: "relaxing any one filter" — a wider inclusive
date range, and each set either emptied (that filter disabled) or replaced by
a superset while staying active. -/
def relaxes (p p' : SearchParams) : Prop :=
  lexLe p'.fromDate.data p.fromDate.data
  ∧ lexLe p.toDate.data p'.toDate.data
  ∧ (p'.agencies = [] ∨ (p.agencies ≠ [] ∧ p.agencies ⊆ p'.agencies))
  ∧ (p'.meetings = [] ∨ (p.meetings ≠ [] ∧ p.meetings ⊆ p'.meetings))

theorem passesFilters_mono {p p' : SearchParams} (h : relaxes p p') (c : Chunk)
    (hc : passesFilters p c = true) : passesFilters p' c = true := by
  rw [passesFilters_iff] at hc ⊢
  obtain ⟨hdate, hag, hmeet⟩ := hc
  obtain ⟨hfrom, hto, hags, hmeets⟩ := h
  refine ⟨?_, ?_, ?_⟩
  · rcases hdate with hd | ⟨hge, hle⟩
    · exact Or.inl hd
    · exact Or.inr ⟨lexLe_trans hfrom hge, lexLe_trans hle hto⟩
  · rcases hags with hags | ⟨hne, hsub⟩
    · exact Or.inl hags
    · rcases hag with hag | hag
      · exact absurd hag hne
      · exact Or.inr (hsub hag)
  · rcases hmeets with hms | ⟨hne, hsub⟩
    · exact Or.inl hms
    · rcases hmeet with hm | hm
      · exact absurd hm hne
      · exact Or.inr (hsub hm)

theorem shardResults_sublist {p p' : SearchParams} (h : relaxes p p')
    (qts : List String) (sh : Shard) :
    (shardResults p qts sh).Sublist (shardResults p' qts sh) := by
  unfold shardResults
  apply List.Sublist.filterMap
  exact List.monotone_filter_right _ (fun c hc => passesFilters_mono h c hc)

/-- Claim C4: the title boost equals 2.0 times the number of query tokens
occurring in the tokenization of the chunk’s title; the per-chunk total score
is the BM25 score plus the boost; and a chunk is emitted as a candidate iff it
passed the filters and its total score is strictly positive. -/
theorem titleBoost_emission (p : SearchParams) (qts : List String) (sh : Shard) (c : Chunk) :
    titleBoost qts c.title = 2 * ((qts.filter (fun t => decide (t ∈ tokenize c.title))).length : ℚ)
    ∧ chunkScore qts sh c
        = calculateBM25 qts c sh.idf sh.avg_length sh.k1 sh.b + titleBoost qts c.title
    ∧ ((∃ s, (c, s) ∈ shardResults p qts sh) ↔
        (c ∈ sh.chunks ∧ passesFilters p c = true ∧ 0 < chunkScore qts sh c)) := by
  refine ⟨?_, rfl, ?_⟩
  · simp only [titleBoost]
    rw [foldl_count_eq]
    push_cast
    ring
  · constructor
    · rintro ⟨s, hs⟩
      rcases List.mem_filterMap.mp hs with ⟨a, ha, hfa⟩
      by_cases h : 0 < chunkScore qts sh a
      · rw [if_pos h] at hfa
        have hac : a = c := congrArg Prod.fst (Option.some.inj hfa)
        subst hac
        have hmem := List.mem_filter.mp ha
        exact ⟨hmem.1, hmem.2, h⟩
      · rw [if_neg h] at hfa
        cases hfa
    · rintro ⟨hc, hpass, hpos⟩
      refine ⟨chunkScore qts sh c, List.mem_filterMap.mpr ⟨c, ?_, ?_⟩⟩
      · exact List.mem_filter.mpr ⟨hc, hpass⟩
      · rw [if_pos hpos]

/-- Claim C5: a chunk survives filtering iff it simultaneously satisfies the
inclusive lexicographic date range (chunks with an empty date are never
excluded by date), the agency-set constraint when that set is non-empty, and
the meeting-set constraint when that set is non-empty; and relaxing the
filters can only extend the candidate list (as a sublist), never remove
candidates. -/
theorem filter_semantics :
    (∀ (p : SearchParams) (c : Chunk), passesFilters p c = true ↔
      ((c.date = "" ∨ (lexLe p.fromDate.data c.date.data ∧ lexLe c.date.data p.toDate.data))
        ∧ (p.agencies = [] ∨ c.agency ∈ p.agencies)
        ∧ (p.meetings = [] ∨ c.meeting ∈ p.meetings)))
    ∧ (∀ (p p' : SearchParams) (qts : List String) (shards : List Shard),
        relaxes p p' →
        ((shards.map (shardResults p qts)).flatten).Sublist
          ((shards.map (shardResults p' qts)).flatten)) := by
  constructor
  · exact passesFilters_iff
  · intro p p' qts shards h
    induction shards with
    | nil => simp
    | cons sh rest ih =>
      simp only [List.map_cons, List.flatten_cons]
      exact (shardResults_sublist h qts sh).append ih

/-- A concrete parameter set used by witnesses. -/
def paramsA : SearchParams :=
  { q := "ai", fromDate := "2020-01-01", toDate := "2030-12-31",
    agencies := [], meetings := [], size := 50 }

/-- A concrete shard used by witnesses. -/
def shardA : Shard :=
  { shard_id := "s1", group := "g1", chunk_count := 1, chunks := [chunkA],
    idf := fun t => if t = "ai" then 1 else 0, avg_length := 10, k1 := 3/2, b := 3/4 }

/-- Witness for `filter_semantics` at concrete parameters (reflexive
relaxation). -/
theorem filter_semantics_witness :
    (([shardA].map (shardResults paramsA ["ai"])).flatten).Sublist
      (([shardA].map (shardResults paramsA ["ai"])).flatten) :=
  filter_semantics.2 paramsA paramsA ["ai"] [shardA]
    ⟨Or.inr rfl, Or.inr rfl, Or.inl rfl, Or.inl rfl⟩

/-! ### Response shape (claim C6) -/

theorem roundTo1_mono {a b : ℚ} (h : a ≤ b) : roundTo1 a ≤ roundTo1 b := by
  unfold roundTo1
  have hf : (⌊a * 10 + 1/2⌋ : ℤ) ≤ ⌊b * 10 + 1/2⌋ := Int.floor_le_floor (by linarith)
  have hq : ((⌊a * 10 + 1/2⌋ : ℤ) : ℚ) ≤ ((⌊b * 10 + 1/2⌋ : ℤ) : ℚ) := by exact_mod_cast hf
  linarith

theorem shardResults_length (p : SearchParams) (qts : List String) (sh : Shard) :
    (shardResults p qts sh).length
      = sh.chunks.countP (fun c => passesFilters p c && decide (0 < chunkScore qts sh c)) := by
  unfold shardResults
  rw [List.length_filterMap_eq_countP, List.countP_filter]
  congr 1
  funext c
  by_cases h : 0 < chunkScore qts sh c
  · simp [h, Bool.and_comm]
  · simp [h]

/-- Claim C6: the hits of the (always successful) core response are ordered by
non-increasing displayed score, their number is at most `min size count`, and
`count` equals the number of chunks across all loaded shards that pass the
filters with a strictly positive total score — the candidate count before
truncation. -/
theorem response_shape (p : SearchParams) (qts : List String) (shards : List Shard) :
    ((searchCore p qts shards).hits).Pairwise (fun h1 h2 => h2.score ≤ h1.score)
    ∧ (searchCore p qts shards).hits.length ≤ min p.size (searchCore p qts shards).count
    ∧ (searchCore p qts shards).count
        = (shards.map (fun sh => sh.chunks.countP
            (fun c => passesFilters p c && decide (0 < chunkScore qts sh c)))).sum := by
  have hhits : (searchCore p qts shards).hits
      = ((searchSorted p qts shards).take p.size).map (toHit qts) := rfl
  have hcount : (searchCore p qts shards).count
      = (searchResults p qts shards).length := rfl
  refine ⟨?_, ?_, ?_⟩
  · have hsorted : (searchSorted p qts shards).Pairwise
        (fun a b : Chunk × ℚ => decide (b.2 ≤ a.2) = true) :=
      List.sorted_mergeSort
        (fun a b c h1 h2 => by
          simp only [decide_eq_true_eq] at *
          linarith)
        (fun a b => by simpa using le_total b.2 a.2)
        (searchResults p qts shards)
    have hsorted' : (searchSorted p qts shards).Pairwise
        (fun a b : Chunk × ℚ => b.2 ≤ a.2) :=
      hsorted.imp (fun hab => of_decide_eq_true hab)
    have htake := hsorted'.sublist (List.take_sublist p.size _)
    rw [hhits, List.pairwise_map]
    exact htake.imp (fun hab => roundTo1_mono hab)
  · rw [hhits, hcount, List.length_map, List.length_take]
    have hlen : (searchSorted p qts shards).length = (searchResults p qts shards).length :=
      List.length_mergeSort _
    rw [hlen]
  · rw [hcount]
    unfold searchResults
    rw [List.length_flatten, List.map_map]
    apply congrArg List.sum
    apply List.map_congr_left
    intro sh _
    exact shardResults_length p qts sh

/-! ### Control flow of the handler (claims C8, C9) -/

/-- Claim C8: a blank query, or one whose token set is empty, short-circuits
to the empty-but-successful response `{hits: [], count: 0}` with no error
field, without reading the manifest and without fetching any shard. -/
theorem empty_query_short_circuit (env : Env) (p : SearchParams)
    (h : (jsTrim p.q.data).isEmpty = true ∨ tokenize p.q = []) :
    handleSearch env p = (emptyOk, false, 0)
    ∧ emptyOk.hits = [] ∧ emptyOk.count = 0 ∧ emptyOk.error = none ∧ emptyOk.status = 200 := by
  refine ⟨?_, rfl, rfl, rfl, rfl⟩
  rcases h with h | h
  · simp [handleSearch, h]
  · by_cases hb : (jsTrim p.q.data).isEmpty = true
    · simp [handleSearch, hb]
    · simp [handleSearch, hb, h]

/-- An environment whose manifest is present but empty. -/
def envA : Env :=
  { manifest := some [], fetchShard := fun _ => none }

/-- Parameters with a blank query. -/
def paramsBlank : SearchParams :=
  { paramsA with q := "" }

/-- Witness for `empty_query_short_circuit` on a blank query. -/
theorem empty_query_short_circuit_witness :
    handleSearch envA paramsBlank = (emptyOk, false, 0) :=
  (empty_query_short_circuit envA paramsBlank (Or.inl (by decide))).1

/-- Claim C9: shard-load fault tolerance.  (1) With a readable manifest but
zero successfully loaded shards, the handler returns the distinct
`"No shards loaded"` error response with empty hits and status 404; (2) with
at least one loaded shard, the response is the core response computed over
exactly the loaded shards, with no error field and status 200 (so a
zero-match success is distinguishable from the no-shards failure by the error
field and status); (3) a shard is in the loaded list iff some fetched
manifest entry (among the first 10) resolved to it. -/
theorem shard_fault_tolerance :
    (∀ (env : Env) (idx : List ShardIndexEntry) (p : SearchParams),
      env.manifest = some idx → loadedShards env idx = [] →
      (jsTrim p.q.data).isEmpty = false → tokenize p.q ≠ [] →
      handleSearch env p
        = ({ hits := [], count := 0, error := some "No shards loaded", status := 404 },
            true, (idx.take 10).length))
    ∧ (∀ (env : Env) (idx : List ShardIndexEntry) (p : SearchParams),
      env.manifest = some idx → loadedShards env idx ≠ [] →
      (jsTrim p.q.data).isEmpty = false → tokenize p.q ≠ [] →
      (handleSearch env p).1 = searchCore p (tokenize p.q) (loadedShards env idx)
        ∧ (handleSearch env p).1.error = none
        ∧ (handleSearch env p).1.status = 200)
    ∧ (∀ (env : Env) (idx : List ShardIndexEntry) (s : Shard),
      s ∈ loadedShards env idx ↔ ∃ e ∈ idx.take 10, env.fetchShard e = some s) := by
  refine ⟨?_, ?_, ?_⟩
  · intro env idx p hman hsh hblank htok
    have ht : (tokenize p.q).isEmpty = false := by
      rw [Bool.eq_false_iff]
      intro hc
      exact htok (List.isEmpty_iff.mp hc)
    simp [handleSearch, hblank, ht, hman, hsh]
  · intro env idx p hman hsh hblank htok
    have ht : (tokenize p.q).isEmpty = false := by
      rw [Bool.eq_false_iff]
      intro hc
      exact htok (List.isEmpty_iff.mp hc)
    have hsh' : (loadedShards env idx).isEmpty = false := by
      rw [Bool.eq_false_iff]
      intro hc
      exact hsh (List.isEmpty_iff.mp hc)
    refine ⟨?_, ?_, ?_⟩ <;> simp [handleSearch, hblank, ht, hman, hsh', searchCore]
  · intro env idx s
    simp [loadedShards, List.mem_filterMap]

/-- A concrete manifest row. -/
def entryA : ShardIndexEntry :=
  { shard_id := "s1", filename := "s1.json", group := "g1", chunk_count := 1 }

/-- An environment whose manifest lists one shard and whose every shard fetch
fails. -/
def envB : Env :=
  { manifest := some [entryA], fetchShard := fun _ => none }

/-- Witness for `shard_fault_tolerance`: all shard fetches fail on a
non-degenerate query. -/
theorem shard_fault_tolerance_witness :
    handleSearch envB paramsA
      = ({ hits := [], count := 0, error := some "No shards loaded", status := 404 },
          true, (([entryA] : List ShardIndexEntry).take 10).length) :=
  shard_fault_tolerance.1 envB [entryA] paramsA rfl rfl (by decide) (by decide)

end ITDashboard
